import Mathlib

/-!
Shallow embedding of the briefing-synthesis pipeline of the aura-briefing
backend, together with proofs of the specification claims about it.

Sources embedded (paths relative to the repository root):
- backend/app/models/video_generation/builder.py
  (slide merge and per-segment duration allocation),
- backend/app/models/podcast_generation/tts_generator.py
  (text chunker and chunked speech synthesis),
- backend/app/main.py
  (URL-set cache key, cache short-circuit, progress stream),
- backend/app/services/multi_url_summary.py
  (per-URL extraction: a placeholder on a resolution returning no
  content, a batch abort on a resolution that raises, as the YouTube
  path of get_or_extract_summary does).

Python floats are modelled as exact rationals; Python strings as lists of
characters where character-level operations matter, and as Lean strings
elsewhere.
-/

namespace AuraBriefing

/-- A Python string, modelled as its list of characters. -/
abbrev Str := List Char

/-- Whitespace as recognised by Python str.strip for ASCII text:
space, tab, newline, carriage return, vertical tab, form feed.
(Python also strips some non-ASCII Unicode whitespace; the model covers
the ASCII range, which is all the pipeline's text operations rely on.) -/
def pyIsSpace (c : Char) : Bool :=
  c.toNat = 32 || c.toNat = 9 || c.toNat = 10 || c.toNat = 13 ||
  c.toNat = 11 || c.toNat = 12

/-- Python str.lstrip with no argument. -/
def lstrip (l : Str) : Str := l.dropWhile pyIsSpace

/-- Python str.rstrip with no argument. -/
def rstrip (l : Str) : Str := (l.reverse.dropWhile pyIsSpace).reverse

/-- Python str.strip with no argument (strip both ends). -/
def pyStrip (l : Str) : Str := lstrip (rstrip l)

/-- Python " ".join over a list of strings. -/
def joinWithSpace (groups : List Str) : Str := List.intercalate [' '] groups

/-- MIN_SLIDE_DURATION from builder.py: seconds; no slide shorter than this. -/
def MIN_SLIDE_DURATION : ℚ := 8

/-- Grouping of a list into consecutive chunks of size c, mirroring the
Python loop `for i in range(0, len(segments), chunk_size)` with the slice
`segments[i : i + chunk_size]`.  The c = 0 guard is unreachable from the
caller (chunk_size is at least 1 there). -/
def chunkGroups (c : Nat) : List α → List (List α)
  | [] => []
  | x :: xs =>
    if _h : c = 0 then [x :: xs]
    else (x :: xs).take c :: chunkGroups c ((x :: xs).drop c)
  termination_by l => l.length
  decreasing_by
    simp only [List.length_drop, List.length_cons]
    omega

/-- Embedding of _merge_segments_to_fit_duration from builder.py:
merge segments so there are at most total_duration / MIN_SLIDE_DURATION
slides (minimum 1), by grouping adjacent segments into chunks of size
ceil(count / maxSlides) and joining each chunk with single spaces.
Python int() truncates toward zero; the guard makes the argument
positive there, so truncation coincides with the floor used here. -/
def mergeSegmentsToFitDuration (segments : List Str) (totalDuration : ℚ) :
    List Str :=
  if segments.isEmpty || totalDuration ≤ 0 then segments
  else
    let maxSlides : Nat := max 1 ⌊totalDuration / MIN_SLIDE_DURATION⌋.toNat
    if segments.length ≤ maxSlides then segments
    else
      let chunkSize := (segments.length + maxSlides - 1) / maxSlides
      (chunkGroups chunkSize segments).map joinWithSpace

/-- Embedding of the per-segment duration allocation of
build_briefing_video (builder.py lines 262-272): raw duration proportional
to character length (equal split when the total character count is 0),
floored at MIN_SLIDE_DURATION, then renormalized so the total matches the
audio duration. -/
def allocateDurations (segments : List Str) (totalDuration : ℚ) : List ℚ :=
  let totalChars : Nat := (segments.map List.length).sum
  let raw : List ℚ := segments.map (fun s =>
    if totalChars ≠ 0 then ((s.length : ℚ) / (totalChars : ℚ)) * totalDuration
    else totalDuration / (segments.length : ℚ))
  let floored := raw.map (fun d => max d MIN_SLIDE_DURATION)
  let segSum := floored.sum
  if 0 < segSum then floored.map (fun d => (d / segSum) * totalDuration)
  else floored

/-! Embedding of the text chunker of tts_generator.py. -/

/-- Python block.rfind(sep): the largest index at which sep occurs as a
contiguous substring of block, or none when it does not occur. -/
def rfindSub (block sep : List Char) : Option Nat :=
  (List.range (block.length - sep.length + 1)).reverse.find?
    (fun i => sep.isPrefixOf (block.drop i))

/-- The separator priority list of _split_into_chunks: paragraph break,
line break, sentence-ending punctuation followed by a space, then a
single space. -/
def ttsSeparators : List (List Char) :=
  [['\n', '\n'], ['\n'], ['.', ' '], ['!', ' '], ['?', ' '],
   [';', ' '], [',', ' '], [' ']]

/-- The separator search loop of _split_into_chunks: for each separator in
priority order, take the last occurrence in the window; accept it only
when it falls past the midpoint (index greater than maxChars / 2), in
which case the cut position is that index plus the separator length. -/
def findBreak (block : List Char) (maxChars : Nat) :
    List (List Char) → Option Nat
  | [] => none
  | sep :: rest =>
    match rfindSub block sep with
    | some idx =>
      if maxChars / 2 < idx then some (idx + sep.length)
      else findBreak block maxChars rest
    | none => findBreak block maxChars rest

/-- The while-loop of _split_into_chunks.  The fuel argument makes the
recursion structural; splitIntoChunks passes the text length, which
suffices because every iteration strips at least one character off the
remaining text when maxChars is at least 1.  (For maxChars = 0 the Python
loop itself never terminates, so no fuel value is faithful there.) -/
def chunkLoop : Nat → List Char → Nat → List (List Char)
  | 0, _, _ => []
  | fuel + 1, rest, maxChars =>
    if rest = [] then []
    else if rest.length ≤ maxChars then [pyStrip rest]
    else
      let breakAt :=
        match findBreak (rest.take (maxChars + 1)) maxChars ttsSeparators with
        | some b => b
        | none => maxChars
      let chunk := pyStrip (rest.take breakAt)
      (if chunk = [] then [] else [chunk]) ++
        chunkLoop fuel (lstrip (rest.drop breakAt)) maxChars

/-- Embedding of _split_into_chunks from tts_generator.py: strip the
text; empty input gives no chunks; text within the limit is one chunk;
otherwise run the cutting loop. -/
def splitIntoChunks (text : List Char) (maxChars : Nat) : List (List Char) :=
  let t := pyStrip text
  if t = [] then []
  else if t.length ≤ maxChars then [t]
  else chunkLoop t.length t maxChars

/-- The non-whitespace characters of a string, in order: the invariant
content that chunking must preserve when chunk-boundary whitespace
normalization is ignored. -/
def filterNS (l : List Char) : List Char := l.filter (fun c => !pyIsSpace c)

/-- Python str.strip on a Lean string. -/
def pyStripS (s : String) : String := (pyStrip s.toList).asString

/-! Embedding of the URL-set cache key of main.py.  The key is
"urls:" followed by the sha256 hex digest of the JSON encoding of the
sorted list of stripped non-empty URLs; sha256 and the relevant parts of
Python json.dumps and sorted are implemented below. -/

/-- The list comprehension shared by _urls_cache_key (main.py) and
get_multi_url_summary (multi_url_summary.py): strip every URL and keep
the non-empty results. -/
def trimmedUrls (urls : List String) : List String :=
  urls.filterMap (fun u =>
    if u ≠ "" ∧ pyStripS u ≠ "" then some (pyStripS u) else none)

/-- A 32-bit word: a natural number reduced modulo 2^32. -/
def w32 (n : Nat) : Nat := n % 4294967296

/-- Right rotation of a 32-bit word by k bits. -/
def rotr32 (k n : Nat) : Nat := w32 ((n >>> k) ||| (n <<< (32 - k)))

/-- The 64 SHA-256 round constants of FIPS 180-4, written in decimal. -/
def sha256K : List Nat :=
  [1116352408, 1899447441, 3049323471, 3921009573,
   961987163, 1508970993, 2453635748, 2870763221,
   3624381080, 310598401, 607225278, 1426881987,
   1925078388, 2162078206, 2614888103, 3248222580,
   3835390401, 4022224774, 264347078, 604807628,
   770255983, 1249150122, 1555081692, 1996064986,
   2554220882, 2821834349, 2952996808, 3210313671,
   3336571891, 3584528711, 113926993, 338241895,
   666307205, 773529912, 1294757372, 1396182291,
   1695183700, 1986661051, 2177026350, 2456956037,
   2730485921, 2820302411, 3259730800, 3345764771,
   3516065817, 3600352804, 4094571909, 275423344,
   430227734, 506948616, 659060556, 883997877,
   958139571, 1322822218, 1537002063, 1747873779,
   1955562222, 2024104815, 2227730452, 2361852424,
   2428436474, 2756734187, 3204031479, 3329325298]

/-- The SHA-256 initial hash state of FIPS 180-4, written in decimal. -/
def sha256H0 : List Nat :=
  [1779033703, 3144134277, 1013904242, 2773480762,
   1359893119, 2600822924, 528734635, 1541459225]

/-- A 32-bit word as four big-endian bytes. -/
def be32 (n : Nat) : List Nat :=
  [(n >>> 24) % 256, (n >>> 16) % 256, (n >>> 8) % 256, n % 256]

/-- A 64-bit length as eight big-endian bytes. -/
def be64 (n : Nat) : List Nat :=
  [(n >>> 56) % 256, (n >>> 48) % 256, (n >>> 40) % 256, (n >>> 32) % 256,
   (n >>> 24) % 256, (n >>> 16) % 256, (n >>> 8) % 256, n % 256]

/-- SHA-256 message padding: append the 0x80 byte, zeros up to 56 mod 64,
then the bit length as a big-endian 64-bit integer. -/
def sha256Pad (msg : List Nat) : List Nat :=
  msg ++ 128 :: List.replicate ((119 - msg.length % 64) % 64) 0 ++
    be64 (8 * msg.length)

/-- Groups of four big-endian bytes as 32-bit words. -/
def bytesToWords : List Nat → List Nat
  | b0 :: b1 :: b2 :: b3 :: rest =>
    ((b0 <<< 24) + (b1 <<< 16) + (b2 <<< 8) + b3) :: bytesToWords rest
  | _ => []

/-- One step of the SHA-256 message-schedule extension, on the reversed
schedule so the newest word is at the head. -/
def sha256ExtendStep (revW : List Nat) : List Nat :=
  let g := fun k => revW.getD k 0
  let s0 := (rotr32 7 (g 14)) ^^^ (rotr32 18 (g 14)) ^^^ ((g 14) >>> 3)
  let s1 := (rotr32 17 (g 1)) ^^^ (rotr32 19 (g 1)) ^^^ ((g 1) >>> 10)
  w32 (g 15 + s0 + g 6 + s1) :: revW

/-- The 64-word SHA-256 message schedule of a block. -/
def sha256Schedule (w16 : List Nat) : List Nat :=
  ((List.range 48).foldl (fun r _ => sha256ExtendStep r) w16.reverse).reverse

/-- One SHA-256 compression round on the eight-word working state. -/
def sha256Round (st : List Nat) (wk : Nat × Nat) : List Nat :=
  match st with
  | [a, b, c, d, e, f, g, h] =>
    let s1 := (rotr32 6 e) ^^^ (rotr32 11 e) ^^^ (rotr32 25 e)
    let ch := (e &&& f) ^^^ ((4294967295 ^^^ e) &&& g)
    let temp1 := w32 (h + s1 + ch + wk.2 + wk.1)
    let s0 := (rotr32 2 a) ^^^ (rotr32 13 a) ^^^ (rotr32 22 a)
    let maj := (a &&& b) ^^^ (a &&& c) ^^^ (b &&& c)
    let temp2 := w32 (s0 + maj)
    [w32 (temp1 + temp2), a, b, c, w32 (d + temp1), e, f, g]
  | other => other

/-- SHA-256 compression of one 64-byte block into the hash state. -/
def sha256Compress (h : List Nat) (block : List Nat) : List Nat :=
  let w := sha256Schedule (bytesToWords block)
  let st := (w.zip sha256K).foldl sha256Round h
  List.zipWith (fun x y => w32 (x + y)) h st

/-- Fold the compression over the 64-byte blocks of the padded message;
the fuel is the number of blocks, keeping the recursion structural. -/
def sha256BlocksGo : Nat → List Nat → List Nat → List Nat
  | 0, h, _ => h
  | fuel + 1, h, bytes =>
    match bytes with
    | [] => h
    | _ => sha256BlocksGo fuel (sha256Compress h (bytes.take 64)) (bytes.drop 64)

/-- SHA-256 of a byte list, as its 32 digest bytes. -/
def sha256 (msg : List Nat) : List Nat :=
  let padded := sha256Pad msg
  ((sha256BlocksGo (padded.length / 64) sha256H0 padded).map be32).flatten

/-- One lowercase hex digit. -/
def hexChar (n : Nat) : Char :=
  if n < 10 then Char.ofNat (48 + n) else Char.ofNat (87 + n)

/-- Lowercase hex encoding of a byte list (hashlib hexdigest). -/
def bytesToHex (bs : List Nat) : String :=
  ((bs.map (fun b => [hexChar (b / 16), hexChar (b % 16)])).flatten).asString

/-- Four hex digits of a code point below 0x10000. -/
def hexChar4 (n : Nat) : List Char :=
  [hexChar (n / 4096 % 16), hexChar (n / 256 % 16),
   hexChar (n / 16 % 16), hexChar (n % 16)]

/-- Escaping of one character inside a Python json.dumps string literal
with the default ensure_ascii=True: named escapes for quote, backslash
and common control characters, a backslash-u sequence for every other
character outside the printable ASCII range 0x20 to 0x7e.  (Code points
above 0xffff would need surrogate pairs; URLs in this pipeline stay in
the basic plane.) -/
def jsonEscapeChar (c : Char) : List Char :=
  if c = '"' then ['\\', '"']
  else if c = '\\' then ['\\', '\\']
  else if c = '\n' then ['\\', 'n']
  else if c = '\r' then ['\\', 'r']
  else if c = '\t' then ['\\', 't']
  else if c.toNat = 8 then ['\\', 'b']
  else if c.toNat = 12 then ['\\', 'f']
  else if c.toNat < 32 || 126 < c.toNat then '\\' :: 'u' :: hexChar4 c.toNat
  else [c]

/-- A Python json.dumps string literal. -/
def jsonString (s : String) : String :=
  ('"' :: (s.toList.map jsonEscapeChar).flatten ++ ['"']).asString

/-- Python json.dumps of a list of strings (default separators). -/
def jsonDumpsList (xs : List String) : String :=
  "[" ++ String.intercalate ", " (xs.map jsonString) ++ "]"

/-- Lexicographic code-point comparison of strings, as Python compares
str values. -/
def charListLt : List Char → List Char → Bool
  | [], [] => false
  | [], _ :: _ => true
  | _ :: _, [] => false
  | x :: xs, y :: ys =>
    if x.toNat < y.toNat then true
    else if y.toNat < x.toNat then false
    else charListLt xs ys

/-- Insertion into a sorted list of strings. -/
def insertSorted (s : String) : List String → List String
  | [] => [s]
  | t :: rest =>
    if charListLt t.toList s.toList then t :: insertSorted s rest
    else s :: t :: rest

/-- Python sorted over strings: ascending by code points. -/
def sortStrings (xs : List String) : List String := xs.foldr insertSorted []

/-- UTF-8 encoding of one character (str.encode). -/
def utf8Encode (c : Char) : List Nat :=
  let n := c.toNat
  if n < 128 then [n]
  else if n < 2048 then [192 + n / 64, 128 + n % 64]
  else if n < 65536 then [224 + n / 4096, 128 + n / 64 % 64, 128 + n % 64]
  else [240 + n / 262144, 128 + n / 4096 % 64, 128 + n / 64 % 64, 128 + n % 64]

/-- UTF-8 bytes of a string (str.encode). -/
def strUtf8 (s : String) : List Nat := (s.toList.map utf8Encode).flatten

/-- Embedding of _urls_cache_key from main.py: "urls:" followed by the
sha256 hex digest of the JSON encoding of the sorted stripped non-empty
URL list.  (The sorted list keeps duplicates; there is no distinct
step in the code.) -/
def urlsCacheKey (urls : List String) : String :=
  let canonical := jsonDumpsList (sortStrings (trimmedUrls urls))
  "urls:" ++ bytesToHex (sha256 (strUtf8 canonical))

/-! Embedding of multi_url_summary.py. -/

/-- The provider-agnostic summary JSON of one URL: the dictionary fields
_summary_dict_to_content reads.  A Python dict may lack any of them. -/
structure ContentDict where
  title : Option String
  name : Option String
  text : Option String
  transcript : Option String
  content : Option String
deriving DecidableEq

/-- Python truthiness of an optional string: None and the empty string
are falsy. -/
def truthyStr : Option String → Option String
  | none => none
  | some s => if s = "" then none else some s

/-- Embedding of _summary_dict_to_content: title from the title or name
field, body from the text, transcript or content field (first truthy
wins), joined with the source line by newlines, skipping empty parts,
then stripped.  The argument is none for a falsy dict (Python None or an
empty dict), which yields the empty string. -/
def summaryDictToContent (obj : Option ContentDict) (url : String) : String :=
  match obj with
  | none => ""
  | some d =>
    let title := ((truthyStr d.title).or (truthyStr d.name)).getD ""
    let body :=
      (((truthyStr d.text).or (truthyStr d.transcript)).or
        (truthyStr d.content)).getD ""
    let parts := ["Source: " ++ url, title, body]
    pyStripS (String.intercalate "\n" (parts.filter (fun p => p ≠ "")))

/-- The placeholder recorded for a URL whose content could not be
resolved (get_or_extract_summary returned None). -/
def extractionPlaceholder (url : String) : String :=
  "[Source: " ++ url ++ "]\n(Content could not be extracted or URL not supported.)"

/-- The per-URL body of the loop in get_multi_url_summary.  The resolver
models get_or_extract_summary, which has two failure modes: the
non-YouTube extraction path returns Python None on failure, while the
YouTube path (youtube_url_to_text) raises ValueError when the metadata
or transcript is unavailable, and get_multi_url_summary does not catch
it.  A raised exception is Except.error with the exception message;
Except.ok none is a returned None (placeholder recorded); the inner
option of Except.ok (some obj) is the returned dict (none for an empty
one). -/
def urlItemContent
    (resolver : String → Except String (Option (Option ContentDict)))
    (url : String) : Except String String :=
  match resolver url with
  | .error e => .error e
  | .ok none => .ok (extractionPlaceholder url)
  | .ok (some obj) => .ok (summaryDictToContent obj url)

/-- The for-loop of get_multi_url_summary: resolve the URLs one at a
time in order, collecting each URL's content or placeholder; an
exception raised by a resolution aborts the loop (and the whole batch)
with that error. -/
def collectItemContents
    (resolver : String → Except String (Option (Option ContentDict))) :
    List String → Except String (List String)
  | [] => .ok []
  | url :: rest =>
    match urlItemContent resolver url with
    | .error e => .error e
    | .ok s =>
      match collectItemContents resolver rest with
      | .error e => .error e
      | .ok others => .ok (s :: others)

/-- Embedding of get_multi_url_summary: strip and drop empty URLs, then
run the per-URL loop; an uncaught resolution exception propagates to the
caller, otherwise one digest of all collected contents is produced.  The
digest function models generate_3min_digest_summary (an external
provider call). -/
def getMultiUrlSummary
    (resolver : String → Except String (Option (Option ContentDict)))
    (digest : List String → String) (urls : List String) :
    Except String String :=
  let urls2 := trimmedUrls urls
  if urls2 = [] then .ok "No URLs provided."
  else
    match collectItemContents resolver urls2 with
    | .error e => .error e
    | .ok itemContents =>
      if itemContents = [] then
        .ok "No content could be extracted from the given URLs."
      else .ok (digest itemContents)

/-! Embedding of the cached-briefing orchestration of main.py. -/

/-- A CachedBriefingAudio row (models/database/cached_briefing_audio.py):
one cached audio per (userId, cacheKey). -/
structure CachedAudio where
  userId : Nat
  cacheKey : String
  storagePath : String
  durationSeconds : Option ℚ
  transcript : String
deriving DecidableEq

/-- The cache lookup of generate_podcast_from_urls: the first row whose
user id and cache key match. -/
def dbFind (db : List CachedAudio) (userId : Nat) (cacheKey : String) :
    Option CachedAudio :=
  db.find? (fun r => r.userId == userId && r.cacheKey == cacheKey)

/-- The upsert at the end of generate_podcast_from_urls: update the
matching row in place when one exists, otherwise add a new row. -/
def dbUpsert (db : List CachedAudio) (rec : CachedAudio) :
    List CachedAudio :=
  if (dbFind db rec.userId rec.cacheKey).isSome then
    db.map (fun r =>
      if r.userId == rec.userId && r.cacheKey == rec.cacheKey then
        { r with storagePath := rec.storagePath,
                 durationSeconds := rec.durationSeconds,
                 transcript := rec.transcript }
      else r)
  else db ++ [rec]

/-- The externally visible work a briefing run performs: per-URL content
resolution, batch summarization, speech synthesis, cache persistence.
The cache-hit path must perform none of these. -/
inductive BriefingEffect where
  | resolveUrl (url : String)
  | summarize
  | ttsSynthesize
  | upsertCache
deriving DecidableEq

/-- The response of the endpoint: an HTTP error, the cached audio file
(with the X-Cached header), or a freshly synthesized file. -/
inductive BriefingResponse where
  | httpError (status : Nat) (detail : String)
  | cachedFile (path : String) (durationSeconds : Option ℚ)
  | freshFile (path : String) (durationSeconds : Option ℚ)
deriving DecidableEq

/-- The resolveUrl effects the summary loop performs: one per URL in
order, stopping after the first resolution that raises. -/
def resolveAttempts
    (resolver : String → Except String (Option (Option ContentDict))) :
    List String → List BriefingEffect
  | [] => []
  | url :: rest =>
    BriefingEffect.resolveUrl url ::
      (match resolver url with
       | .error _ => []
       | .ok _ => resolveAttempts resolver rest)

/-- The effects of the whole summary phase: the resolution attempts, and
the digest provider call when the loop completes with contents. -/
def summaryPhaseEffects
    (resolver : String → Except String (Option (Option ContentDict)))
    (urls : List String) : List BriefingEffect :=
  let urls2 := trimmedUrls urls
  if urls2 = [] then []
  else
    match collectItemContents resolver urls2 with
    | .error _ => resolveAttempts resolver urls2
    | .ok itemContents =>
      resolveAttempts resolver urls2 ++
        (if itemContents = [] then [] else [BriefingEffect.summarize])

/-- Embedding of generate_podcast_from_urls (main.py): empty-list and
missing-credential checks, cache lookup with the on-disk file check and
immediate return on a hit, otherwise summarize, synthesize, upsert.  An
exception escaping the summary phase (a ValueError from a YouTube
resolution or from the digest provider) is caught by the endpoint and
turned into a 503 response.  State is passed explicitly: db is the
CachedBriefingAudio table, fsFiles the set of paths present on disk; tts
models text_to_audio (errors map to the HTTP error responses of the
endpoint).  The returned effect list records the provider work
performed. -/
def generatePodcastFromUrls (userId : Nat) (urls : List String)
    (apiKeyConfigured : Bool) (db : List CachedAudio) (fsFiles : List String)
    (resolver : String → Except String (Option (Option ContentDict)))
    (digest : List String → String)
    (tts : String → Except String (String × Option ℚ)) :
    BriefingResponse × List CachedAudio × List BriefingEffect :=
  if urls = [] then
    (.httpError 400 "urls must be a non-empty list", db, [])
  else if ¬ apiKeyConfigured then
    (.httpError 503 "GEMINI_API_KEY not set; summary + podcast generation unavailable",
      db, [])
  else
    let cacheKey := urlsCacheKey urls
    let hit : Option CachedAudio :=
      match dbFind db userId cacheKey with
      | some cached =>
        if cached.storagePath ≠ "" ∧ cached.storagePath ∈ fsFiles then
          some cached
        else none
      | none => none
    match hit with
    | some cached => (.cachedFile cached.storagePath cached.durationSeconds, db, [])
    | none =>
      let resolveEffects := summaryPhaseEffects resolver urls
      match getMultiUrlSummary resolver digest urls with
      | .error e => (.httpError 503 e, db, resolveEffects)
      | .ok summary =>
        if pyStripS summary = "" then
          (.httpError 503 "No summary generated", db, resolveEffects)
        else
          match tts summary with
          | .error e =>
            (.httpError 502 e, db, resolveEffects ++ [BriefingEffect.ttsSynthesize])
          | .ok (path, dur) =>
            (.freshFile path dur,
              dbUpsert db ⟨userId, cacheKey, path, dur, summary⟩,
              resolveEffects ++
                [BriefingEffect.ttsSynthesize, BriefingEffect.upsertCache])

/-! Embedding of the progress stream of main.py. -/

/-- One entry of the in-process progress store. -/
structure ProgressEntry where
  progress : Int
  done : Bool
  error : Option String
deriving DecidableEq

/-- The progress store: the token-keyed dictionary behind the lock. -/
abbrev ProgressStore := List (String × ProgressEntry)

/-- Dictionary lookup _progress_store.get(token). -/
def storeGet (store : ProgressStore) (token : String) : Option ProgressEntry :=
  (store.find? (fun kv => kv.1 == token)).map (fun kv => kv.2)

/-- Dictionary removal _progress_store.pop(token, None). -/
def storePop (store : ProgressStore) (token : String) : ProgressStore :=
  store.filter (fun kv => !(kv.1 == token))

/-- One payload of the SSE stream. -/
structure SSEPayload where
  progress : Int
  done : Bool
  error : Option String
deriving DecidableEq

/-- The outcome of one poll iteration of the stream loop. -/
structure SSEStepResult where
  emitted : Option SSEPayload
  store : ProgressStore
  lastProgress : Int
  stop : Bool
deriving DecidableEq

/-- One iteration of the while-loop inside progress_sse (main.py): when
no entry exists, a progress-0 payload is emitted and polling continues;
when an entry exists, a payload is emitted exactly when the stored
progress differs from the last emitted one or the entry is done (the
emitted progress becomes the new last value), and a done entry is popped
from the store and the stream stops. -/
def progressStep (store : ProgressStore) (lastProgress : Int)
    (token : String) : SSEStepResult :=
  match storeGet store token with
  | none => ⟨some ⟨0, false, none⟩, store, lastProgress, false⟩
  | some e =>
    let emitted :=
      if e.progress ≠ lastProgress ∨ e.done = true then
        some (SSEPayload.mk e.progress e.done e.error)
      else none
    let last2 :=
      if e.progress ≠ lastProgress ∨ e.done = true then e.progress
      else lastProgress
    if e.done then ⟨emitted, storePop store token, last2, true⟩
    else ⟨emitted, store, last2, false⟩

/-! Embedding of the multi-chunk synthesis path of text_to_audio
(tts_generator.py lines 169-189). -/

/-- GEMINI_TTS_SAMPLE_RATE from tts_generator.py. -/
def GEMINI_TTS_SAMPLE_RATE : Nat := 24000

/-- GEMINI_TTS_CHANNELS from tts_generator.py. -/
def GEMINI_TTS_CHANNELS : Nat := 1

/-- GEMINI_TTS_SAMPLE_WIDTH from tts_generator.py. -/
def GEMINI_TTS_SAMPLE_WIDTH : Nat := 2

/-- The WAV container written at the end of synthesis: the fixed mono
16-bit 24 kHz parameters and the PCM frame bytes.  A value of this type
exists only when the wave.open write is reached. -/
structure WavWrite where
  nchannels : Nat
  sampwidth : Nat
  framerate : Nat
  frames : List Nat
deriving DecidableEq

/-- The per-chunk loop of the multi-chunk path: skip chunks that strip
to nothing, call the provider once per chunk sequentially, concatenate
the raw PCM byte-for-byte in chunk order; the first provider error
aborts the loop (the Python exception propagates). -/
def ttsConcatFrames (provider : Str → Except String (List Nat)) :
    List Str → Except String (List Nat)
  | [] => .ok []
  | chunk :: rest =>
    if pyStrip chunk = [] then ttsConcatFrames provider rest
    else
      match provider chunk with
      | .error e => .error e
      | .ok data =>
        match ttsConcatFrames provider rest with
        | .error e => .error e
        | .ok frames => .ok (data ++ frames)

/-- Embedding of the multi-chunk branch of text_to_audio: run the chunk
loop; a provider error aborts the whole synthesis with that error and no
container is written; empty accumulated audio is an error; otherwise the
WAV container is written with the concatenated frames. -/
def textToAudioMultiChunk (provider : Str → Except String (List Nat))
    (chunks : List Str) : Except String WavWrite :=
  match ttsConcatFrames provider chunks with
  | .error e => .error e
  | .ok frames =>
    if frames = [] then .error "Gemini TTS returned no audio"
    else .ok ⟨GEMINI_TTS_CHANNELS, GEMINI_TTS_SAMPLE_WIDTH,
      GEMINI_TTS_SAMPLE_RATE, frames⟩

/-! Lemmas about chunk grouping and merging. -/

theorem chunkGroups_length_le (m : Nat) :
    ∀ (l : List α) (c : Nat), 1 ≤ c → l.length ≤ c * m →
      (chunkGroups c l).length ≤ m := by
  induction m with
  | zero =>
    intro l c _ hlen
    have : l = [] := by
      cases l with
      | nil => rfl
      | cons x xs => simp at hlen
    subst this
    simp [chunkGroups]
  | succ m ih =>
    intro l c hc hlen
    cases l with
    | nil => simp [chunkGroups]
    | cons x xs =>
      rw [chunkGroups, dif_neg (by omega)]
      simp only [List.length_cons]
      have hdrop : ((x :: xs).drop c).length ≤ c * m := by
        have h1 : c * (m + 1) = c * m + c := by ring
        have h2 : ((x :: xs).drop c).length = (x :: xs).length - c := by
          simp [List.length_drop]
        set k := c * m with hk
        omega
      have := ih ((x :: xs).drop c) c hc hdrop
      omega

theorem mergeSegmentsToFitDuration_length_le (segments : List Str)
    (totalDuration : ℚ) (hD : 0 < totalDuration) :
    (mergeSegmentsToFitDuration segments totalDuration).length ≤
      max 1 ⌊totalDuration / MIN_SLIDE_DURATION⌋.toNat := by
  unfold mergeSegmentsToFitDuration
  set ms := max 1 ⌊totalDuration / MIN_SLIDE_DURATION⌋.toNat with hms
  by_cases he : segments.isEmpty
  · cases segments with
    | nil => simp [he]
    | cons x xs => simp [List.isEmpty] at he
  · rw [if_neg (by simp [he, not_le.mpr hD])]
    simp only
    by_cases hlen : segments.length ≤ ms
    · rw [if_pos hlen]; exact hlen
    · rw [if_neg hlen]
      rw [List.length_map]
      have hms1 : 1 ≤ ms := le_max_left _ _
      have hn : 1 ≤ segments.length := by omega
      set n := segments.length with hn_def
      set c := (n + ms - 1) / ms with hc_def
      have hc1 : 1 ≤ c := by
        rw [hc_def]
        rw [Nat.le_div_iff_mul_le (by omega)]
        omega
      apply chunkGroups_length_le ms segments c hc1
      have hlt : n + ms - 1 < (n + ms - 1) / ms * ms + ms :=
        Nat.lt_div_mul_add (by omega)
      rw [← hn_def]
      set k := c * ms with hk
      have hck : (n + ms - 1) / ms * ms = k := by rw [hk, hc_def, Nat.mul_comm]
      omega

theorem mergeSegmentsToFitDuration_ne_nil (segments : List Str)
    (totalDuration : ℚ) (hs : segments ≠ []) :
    mergeSegmentsToFitDuration segments totalDuration ≠ [] := by
  unfold mergeSegmentsToFitDuration
  by_cases he : segments.isEmpty || totalDuration ≤ 0
  · rw [if_pos he]; exact hs
  · rw [if_neg he]
    simp only
    by_cases hlen : segments.length ≤ max 1 ⌊totalDuration / MIN_SLIDE_DURATION⌋.toNat
    · rw [if_pos hlen]; exact hs
    · rw [if_neg hlen]
      cases segments with
      | nil => exact absurd rfl hs
      | cons x xs =>
        rw [chunkGroups]
        split
        · simp
        · simp

/-! Lemmas about duration allocation. -/

theorem sum_map_div_mul (l : List ℚ) (S D : ℚ) :
    (l.map (fun d => d / S * D)).sum = l.sum / S * D := by
  induction l with
  | nil => simp
  | cons x xs ih =>
    simp only [List.map_cons, List.sum_cons, ih]
    ring

theorem allocateDurations_sum (segments : List Str) (totalDuration : ℚ)
    (hs : segments ≠ []) :
    (allocateDurations segments totalDuration).sum = totalDuration := by
  unfold allocateDurations
  simp only
  set raw := segments.map (fun s =>
    if (segments.map List.length).sum ≠ 0 then
      ((s.length : ℚ) / ((segments.map List.length).sum : ℚ)) * totalDuration
    else totalDuration / (segments.length : ℚ)) with hraw
  set floored := raw.map (fun d => max d MIN_SLIDE_DURATION) with hfl
  have hmem : ∀ x ∈ floored, MIN_SLIDE_DURATION ≤ x := by
    intro x hx
    rw [hfl] at hx
    obtain ⟨d, _, rfl⟩ := List.mem_map.mp hx
    exact le_max_right _ _
  have hne : floored ≠ [] := by
    rw [hfl, hraw]
    cases segments with
    | nil => exact absurd rfl hs
    | cons a b => simp
  have hpos : 0 < floored.sum := by
    apply List.sum_pos
    · intro x hx
      calc (0 : ℚ) < MIN_SLIDE_DURATION := by norm_num [MIN_SLIDE_DURATION]
        _ ≤ x := hmem x hx
    · exact hne
  rw [if_pos hpos, sum_map_div_mul, div_self (ne_of_gt hpos), one_mul]

theorem allocateDurations_pos (segments : List Str) (totalDuration : ℚ)
    (hs : segments ≠ []) (hD : 0 < totalDuration) :
    ∀ d ∈ allocateDurations segments totalDuration, 0 < d := by
  unfold allocateDurations
  simp only
  set raw := segments.map (fun s =>
    if (segments.map List.length).sum ≠ 0 then
      ((s.length : ℚ) / ((segments.map List.length).sum : ℚ)) * totalDuration
    else totalDuration / (segments.length : ℚ)) with hraw
  set floored := raw.map (fun d => max d MIN_SLIDE_DURATION) with hfl
  have hmem : ∀ x ∈ floored, MIN_SLIDE_DURATION ≤ x := by
    intro x hx
    rw [hfl] at hx
    obtain ⟨d, _, rfl⟩ := List.mem_map.mp hx
    exact le_max_right _ _
  have hne : floored ≠ [] := by
    rw [hfl, hraw]
    cases segments with
    | nil => exact absurd rfl hs
    | cons a b => simp
  have hmin : (0 : ℚ) < MIN_SLIDE_DURATION := by norm_num [MIN_SLIDE_DURATION]
  have hpos : 0 < floored.sum := by
    apply List.sum_pos
    · intro x hx
      exact lt_of_lt_of_le hmin (hmem x hx)
    · exact hne
  rw [if_pos hpos]
  intro d hd
  obtain ⟨x, hx, rfl⟩ := List.mem_map.mp hd
  have hx0 : 0 < x := lt_of_lt_of_le hmin (hmem x hx)
  exact mul_pos (div_pos hx0 hpos) hD

/-- C1: for every positive total audio duration and every non-empty
segment list, the per-segment durations allocated by the assembler sum
to the total duration within a tolerance of 1e-6 (in this exact-rational
model the sum is exactly the total duration), and every allocated
duration is nonnegative. -/
theorem C1_duration_allocation_sum (segments : List Str) (totalDuration : ℚ)
    (hs : segments ≠ []) (hD : 0 < totalDuration) :
    |(allocateDurations segments totalDuration).sum - totalDuration| <
      1 / 1000000 ∧
    ∀ d ∈ allocateDurations segments totalDuration, 0 ≤ d := by
  constructor
  · rw [allocateDurations_sum segments totalDuration hs]
    norm_num
  · intro d hd
    exact le_of_lt (allocateDurations_pos segments totalDuration hs hD d hd)

/-- Witness for C1 at a concrete input: two segments, total duration 3. -/
theorem C1_duration_allocation_sum_witness :
    ([['h', 'i'], ['y', 'o']] : List Str) ≠ [] ∧ (0 : ℚ) < 3 ∧
    (|(allocateDurations [['h', 'i'], ['y', 'o']] 3).sum - 3| < 1 / 1000000 ∧
     ∀ d ∈ allocateDurations [['h', 'i'], ['y', 'o']] 3, 0 ≤ d) :=
  ⟨by simp, by norm_num,
    C1_duration_allocation_sum [['h', 'i'], ['y', 'o']] 3 (by simp) (by norm_num)⟩

/-- C2 counterexample: with segments of character lengths 1 and 100 and a
total duration of 20 seconds, the merge pass keeps both segments (the
bound max(1, floor(20/8)) = 2 is not exceeded), yet after the §4.4
allocation the first slide receives 2020/351 < 8 seconds, i.e. less than
MIN_SLIDE_DURATION.  So the §4.3 sentence that merging guarantees no
slide is displayed for less than minSlideSeconds after allocation is
false on the code. -/
theorem C2_counterexample :
    ∃ d ∈ allocateDurations
      (mergeSegmentsToFitDuration [['a'], List.replicate 100 'b'] 20) 20,
      d < MIN_SLIDE_DURATION := by
  norm_num [allocateDurations, mergeSegmentsToFitDuration, MIN_SLIDE_DURATION]

/-- C2 amended: the merge pass bounds the slide count so that the
average final duration is at least minSlideSeconds whenever the total
duration is at least minSlideSeconds (MIN_SLIDE_DURATION times the merged
slide count is at most the total duration), and every final allocated
duration is strictly positive; an individual slide may still receive less
than minSlideSeconds after renormalization. -/
theorem C2_amended_merge_average_duration (segments : List Str)
    (totalDuration : ℚ) (hs : segments ≠ [])
    (hD : MIN_SLIDE_DURATION ≤ totalDuration) :
    MIN_SLIDE_DURATION *
      ((mergeSegmentsToFitDuration segments totalDuration).length : ℚ) ≤
        totalDuration ∧
    ∀ d ∈ allocateDurations
        (mergeSegmentsToFitDuration segments totalDuration) totalDuration,
      0 < d := by
  have hmin : (0 : ℚ) < MIN_SLIDE_DURATION := by norm_num [MIN_SLIDE_DURATION]
  have hD0 : 0 < totalDuration := lt_of_lt_of_le hmin hD
  constructor
  · have hlen := mergeSegmentsToFitDuration_length_le segments totalDuration hD0
    have hfl1 : 1 ≤ ⌊totalDuration / MIN_SLIDE_DURATION⌋ := by
      rw [Int.le_floor]
      rw [le_div_iff₀ hmin]
      simpa using hD
    have hmax : max 1 ⌊totalDuration / MIN_SLIDE_DURATION⌋.toNat =
        ⌊totalDuration / MIN_SLIDE_DURATION⌋.toNat := by
      have : 1 ≤ ⌊totalDuration / MIN_SLIDE_DURATION⌋.toNat := by omega
      omega
    rw [hmax] at hlen
    have hcast : ((mergeSegmentsToFitDuration segments totalDuration).length : ℚ) ≤
        (⌊totalDuration / MIN_SLIDE_DURATION⌋.toNat : ℚ) := by
      exact_mod_cast hlen
    have htn : ((⌊totalDuration / MIN_SLIDE_DURATION⌋.toNat : ℤ) : ℚ) =
        ((⌊totalDuration / MIN_SLIDE_DURATION⌋ : ℤ) : ℚ) := by
      exact_mod_cast congrArg (fun z : ℤ => (z : ℚ))
        (Int.toNat_of_nonneg (by omega))
    have hfloor : ((⌊totalDuration / MIN_SLIDE_DURATION⌋ : ℤ) : ℚ) ≤
        totalDuration / MIN_SLIDE_DURATION := Int.floor_le _
    calc MIN_SLIDE_DURATION *
          ((mergeSegmentsToFitDuration segments totalDuration).length : ℚ)
        ≤ MIN_SLIDE_DURATION * (⌊totalDuration / MIN_SLIDE_DURATION⌋.toNat : ℚ) :=
          mul_le_mul_of_nonneg_left hcast (le_of_lt hmin)
      _ ≤ MIN_SLIDE_DURATION * (totalDuration / MIN_SLIDE_DURATION) := by
          apply mul_le_mul_of_nonneg_left _ (le_of_lt hmin)
          calc (⌊totalDuration / MIN_SLIDE_DURATION⌋.toNat : ℚ)
              = ((⌊totalDuration / MIN_SLIDE_DURATION⌋ : ℤ) : ℚ) := by
                exact_mod_cast htn
            _ ≤ totalDuration / MIN_SLIDE_DURATION := hfloor
      _ = totalDuration := by field_simp
  · exact allocateDurations_pos _ _
      (mergeSegmentsToFitDuration_ne_nil segments totalDuration hs) hD0

/-- Witness for the amended C2 at a concrete input: three one-character
segments with a total duration of 30 seconds. -/
theorem C2_amended_merge_average_duration_witness :
    ([['a'], ['b'], ['c']] : List Str) ≠ [] ∧ MIN_SLIDE_DURATION ≤ (30 : ℚ) ∧
    (MIN_SLIDE_DURATION *
      ((mergeSegmentsToFitDuration [['a'], ['b'], ['c']] 30).length : ℚ) ≤ 30 ∧
     ∀ d ∈ allocateDurations
        (mergeSegmentsToFitDuration [['a'], ['b'], ['c']] 30) 30, 0 < d) :=
  ⟨by simp, by norm_num [MIN_SLIDE_DURATION],
    C2_amended_merge_average_duration [['a'], ['b'], ['c']] 30 (by simp)
      (by norm_num [MIN_SLIDE_DURATION])⟩

/-- C9: for every segment list and every positive total duration, the
merge pass returns at most max(1, floor(totalDuration / minSlideSeconds))
segments. -/
theorem C9_merge_count_bound (segments : List Str) (totalDuration : ℚ)
    (hD : 0 < totalDuration) :
    (mergeSegmentsToFitDuration segments totalDuration).length ≤
      max 1 ⌊totalDuration / MIN_SLIDE_DURATION⌋.toNat :=
  mergeSegmentsToFitDuration_length_le segments totalDuration hD

/-- Witness for C9 at the instance named by the spec: totalDuration 40,
ten raw segments; the merged output has at most max(1, floor(40/8)) = 5
segments. -/
theorem C9_merge_count_bound_witness :
    (0 : ℚ) < 40 ∧
    (mergeSegmentsToFitDuration (List.replicate 10 ['a']) 40).length ≤ 5 :=
  ⟨by norm_num,
    le_trans (C9_merge_count_bound (List.replicate 10 ['a']) 40 (by norm_num))
      (by norm_num [MIN_SLIDE_DURATION, show Int.toNat 5 = 5 from rfl])⟩

/-! Lemmas about space-joined text, toward merge content preservation. -/

theorem joinWithSpace_cons_of_ne_nil (a : Str) (rest : List Str)
    (h : rest ≠ []) :
    joinWithSpace (a :: rest) = a ++ [' '] ++ joinWithSpace rest := by
  cases rest with
  | nil => exact absurd rfl h
  | cons b t =>
    simp [joinWithSpace, List.intercalate, List.intersperse, List.append_assoc]

theorem joinWithSpace_append_of_ne_nil (a b : List Str)
    (ha : a ≠ []) (hb : b ≠ []) :
    joinWithSpace (a ++ b) =
      joinWithSpace a ++ [' '] ++ joinWithSpace b := by
  induction a with
  | nil => exact absurd rfl ha
  | cons x a ih =>
    cases a with
    | nil =>
      rw [List.singleton_append, joinWithSpace_cons_of_ne_nil x b hb]
      simp [joinWithSpace, List.intercalate]
    | cons y t =>
      have hne : (y :: t) ++ b ≠ [] := by simp
      rw [List.cons_append, joinWithSpace_cons_of_ne_nil x _ hne,
        joinWithSpace_cons_of_ne_nil x (y :: t) (by simp),
        ih (by simp)]
      simp [List.append_assoc]

theorem flatten_ne_nil_of_head (g : List Str) (gs : List (List Str))
    (hg : g ≠ []) : (g :: gs).flatten ≠ [] := by
  simp only [List.flatten_cons]
  cases g with
  | nil => exact absurd rfl hg
  | cons x t => simp

theorem joinWithSpace_map_flatten (groups : List (List Str))
    (h : ∀ g ∈ groups, g ≠ []) :
    joinWithSpace (groups.map joinWithSpace) =
      joinWithSpace groups.flatten := by
  induction groups with
  | nil => rfl
  | cons g gs ih =>
    cases gs with
    | nil => simp [joinWithSpace, List.intercalate]
    | cons g2 t =>
      have hg : g ≠ [] := h g (by simp)
      have hflat : (g2 :: t).flatten ≠ [] :=
        flatten_ne_nil_of_head g2 t (h g2 (by simp))
      rw [List.map_cons, joinWithSpace_cons_of_ne_nil _ _ (by simp),
        List.flatten_cons,
        joinWithSpace_append_of_ne_nil g (g2 :: t).flatten hg hflat,
        ih (fun x hx => h x (List.mem_cons_of_mem _ hx))]

theorem chunkGroups_flatten (c : Nat) (l : List α) :
    (chunkGroups c l).flatten = l := by
  induction l using chunkGroups.induct c with
  | case1 => simp [chunkGroups]
  | case2 x xs hc =>
    rw [chunkGroups, dif_pos hc]
    simp
  | case3 x xs hc ih =>
    rw [chunkGroups, dif_neg hc, List.flatten_cons, ih,
      List.take_append_drop]

theorem chunkGroups_ne_nil (c : Nat) (l : List α) :
    ∀ g ∈ chunkGroups c l, g ≠ [] := by
  induction l using chunkGroups.induct c with
  | case1 => simp [chunkGroups]
  | case2 x xs hc =>
    rw [chunkGroups, dif_pos hc]
    simp
  | case3 x xs hc ih =>
    rw [chunkGroups, dif_neg hc]
    intro g hg
    rcases List.mem_cons.mp hg with hg | hg
    · subst hg
      cases c with
      | zero => exact absurd rfl hc
      | succ c => simp
    · exact ih g hg


/-! Lemmas about stripping. -/

theorem dropWhile_length_le (p : α → Bool) (l : List α) :
    (l.dropWhile p).length ≤ l.length := by
  induction l with
  | nil => simp
  | cons x xs ih =>
    rw [List.dropWhile_cons]
    split
    · exact le_trans ih (by simp)
    · simp

theorem lstrip_length_le (l : Str) : (lstrip l).length ≤ l.length :=
  dropWhile_length_le _ l

theorem rstrip_length_le (l : Str) : (rstrip l).length ≤ l.length := by
  unfold rstrip
  rw [List.length_reverse]
  exact le_trans (dropWhile_length_le _ _) (by simp)

theorem pyStrip_length_le (l : Str) : (pyStrip l).length ≤ l.length :=
  le_trans (lstrip_length_le _) (rstrip_length_le _)

theorem rstrip_length_lt_of_last_space (l : Str) (c : Char)
    (h : l.getLast? = some c) (hc : pyIsSpace c = true) :
    (rstrip l).length < l.length := by
  have hrev : l.reverse.head? = some c := by
    rw [List.head?_reverse]; exact h
  cases hl : l.reverse with
  | nil => rw [hl] at hrev; simp at hrev
  | cons x t =>
    rw [hl] at hrev
    simp only [List.head?_cons, Option.some.injEq] at hrev
    subst hrev
    unfold rstrip
    rw [hl, List.dropWhile_cons, if_pos hc, List.length_reverse]
    have : t.length < l.reverse.length := by rw [hl]; simp
    rw [List.length_reverse] at this
    exact lt_of_le_of_lt (dropWhile_length_le _ _) this

theorem filterNS_dropWhile (l : Str) :
    filterNS (l.dropWhile pyIsSpace) = filterNS l := by
  induction l with
  | nil => rfl
  | cons x xs ih =>
    rw [List.dropWhile_cons]
    split
    · rename_i hx
      rw [ih]
      unfold filterNS
      rw [List.filter_cons, if_neg (by simp [hx])]
    · rfl

theorem filterNS_lstrip (l : Str) : filterNS (lstrip l) = filterNS l :=
  filterNS_dropWhile l

theorem filterNS_rstrip (l : Str) : filterNS (rstrip l) = filterNS l := by
  unfold rstrip filterNS
  rw [List.filter_reverse]
  have := filterNS_dropWhile l.reverse
  unfold filterNS at this
  rw [this, List.filter_reverse, List.reverse_reverse]

theorem filterNS_pyStrip (l : Str) : filterNS (pyStrip l) = filterNS l := by
  unfold pyStrip
  rw [filterNS_lstrip, filterNS_rstrip]

/-! Lemmas about the separator search. -/

theorem rfindSub_some (block sep : List Char) (idx : Nat)
    (h : rfindSub block sep = some idx) :
    sep <+: block.drop idx ∧ idx ≤ block.length := by
  unfold rfindSub at h
  constructor
  · have := List.find?_some h
    exact List.isPrefixOf_iff_prefix.mp this
  · have hmem := List.mem_of_find?_eq_some h
    rw [List.mem_reverse, List.mem_range] at hmem
    omega

theorem take_break_last (block sep : List Char) (idx : Nat)
    (hpre : sep <+: block.drop idx) (hidx : idx ≤ block.length)
    (hsep : sep ≠ []) :
    (block.take (idx + sep.length)).getLast? = sep.getLast? ∧
      idx + sep.length ≤ block.length := by
  obtain ⟨r, hr⟩ := hpre
  have hlen : sep.length ≤ (block.drop idx).length := by
    rw [← hr]; simp
  rw [List.length_drop] at hlen
  have hle : idx + sep.length ≤ block.length := by omega
  refine ⟨?_, hle⟩
  have hblock : block = block.take idx ++ (sep ++ r) := by
    rw [hr]; exact (List.take_append_drop idx block).symm
  have htlen : (block.take idx).length = idx := by
    rw [List.length_take]; omega
  conv_lhs => rw [hblock]
  rw [List.take_append_eq_append_take, htlen,
    List.take_of_length_le (by omega), Nat.add_sub_cancel_left,
    List.take_append_eq_append_take, List.take_of_length_le (le_refl _),
    Nat.sub_self, List.take_zero, List.append_nil, List.getLast?_append]
  cases hs : sep.getLast? with
  | none => rw [List.getLast?_eq_none_iff] at hs; exact absurd hs hsep
  | some c => rfl

theorem findBreak_some (block : List Char) (mc : Nat)
    (seps : List (List Char)) (b : Nat)
    (hseps : ∀ sep ∈ seps, sep ≠ [] ∧
      ∃ c, sep.getLast? = some c ∧ pyIsSpace c = true)
    (h : findBreak block mc seps = some b) :
    1 ≤ b ∧ b ≤ block.length ∧
      ∃ c, (block.take b).getLast? = some c ∧ pyIsSpace c = true := by
  induction seps with
  | nil => simp [findBreak] at h
  | cons sep rest ih =>
    cases hf : rfindSub block sep with
    | none =>
      simp only [findBreak, hf] at h
      exact ih (fun s hs => hseps s (List.mem_cons_of_mem _ hs)) h
    | some idx =>
      simp only [findBreak, hf] at h
      by_cases hcond : mc / 2 < idx
      · rw [if_pos hcond] at h
        have hb : idx + sep.length = b := by injection h
        obtain ⟨hsep_ne, c, hlast, hspace⟩ := hseps sep (by simp)
        obtain ⟨hpre, hidx⟩ := rfindSub_some block sep idx hf
        obtain ⟨hl, hle⟩ := take_break_last block sep idx hpre hidx hsep_ne
        have hsl : 1 ≤ sep.length := by
          cases sep with
          | nil => exact absurd rfl hsep_ne
          | cons a t => simp
        subst hb
        exact ⟨by omega, hle, c, by rw [hl]; exact hlast, hspace⟩
      · rw [if_neg hcond] at h
        exact ih (fun s hs => hseps s (List.mem_cons_of_mem _ hs)) h

theorem ttsSeparators_spec :
    ∀ sep ∈ ttsSeparators, sep ≠ [] ∧
      ∃ c, sep.getLast? = some c ∧ pyIsSpace c = true := by
  decide

/-! The chunker theorems. -/

theorem chunkLoop_chunk_length_le (fuel : Nat) :
    ∀ (rest : List Char) (mc : Nat), 1 ≤ mc →
      ∀ ch ∈ chunkLoop fuel rest mc, ch.length ≤ mc := by
  induction fuel with
  | zero => intro rest mc _ ch hch; simp [chunkLoop] at hch
  | succ fuel ih =>
    intro rest mc hmc ch hch
    rw [chunkLoop] at hch
    split at hch
    · simp at hch
    · split at hch
      · rename_i hlen
        simp only [List.mem_singleton] at hch
        subst hch
        exact le_trans (pyStrip_length_le _) hlen
      · rename_i hrest hlen
        set b := (match findBreak (rest.take (mc + 1)) mc ttsSeparators with
          | some b0 => b0
          | none => mc) with hb_def
        have hble : (pyStrip (rest.take b)).length ≤ mc := by
          cases hfb : findBreak (rest.take (mc + 1)) mc ttsSeparators with
          | some b0 =>
            have hbeq : b = b0 := by rw [hb_def, hfb]
            rw [hbeq]
            obtain ⟨hb1, hble0, c, hlast, hspace⟩ :=
              findBreak_some _ mc _ b0 ttsSeparators_spec hfb
            have hblock : (rest.take (mc + 1)).length ≤ mc + 1 := by
              rw [List.length_take]; omega
            have hbmc : b0 ≤ mc + 1 := le_trans hble0 hblock
            have htk : (rest.take (mc + 1)).take b0 = rest.take b0 := by
              rw [List.take_take]
              congr 1
              omega
            rw [htk] at hlast
            have hlt : (rstrip (rest.take b0)).length < (rest.take b0).length :=
              rstrip_length_lt_of_last_space _ c hlast hspace
            have htb : (rest.take b0).length ≤ b0 := by
              rw [List.length_take]; omega
            have hstrip : (pyStrip (rest.take b0)).length ≤
                (rstrip (rest.take b0)).length := lstrip_length_le _
            omega
          | none =>
            have hbeq : b = mc := by rw [hb_def, hfb]
            rw [hbeq]
            have h1 : (pyStrip (rest.take mc)).length ≤ (rest.take mc).length :=
              pyStrip_length_le _
            have h2 : (rest.take mc).length ≤ mc := by
              rw [List.length_take]; omega
            omega
        rcases List.mem_append.mp hch with hch | hch
        · split at hch
          · simp at hch
          · simp only [List.mem_singleton] at hch
            subst hch
            exact hble
        · exact ih _ mc hmc ch hch

theorem chunkLoop_filter (fuel : Nat) :
    ∀ (rest : List Char) (mc : Nat), 1 ≤ mc → rest.length ≤ fuel →
      filterNS (chunkLoop fuel rest mc).flatten = filterNS rest := by
  induction fuel with
  | zero =>
    intro rest mc _ hlen
    have : rest = [] := by
      cases rest with
      | nil => rfl
      | cons x t => simp at hlen
    subst this
    simp [chunkLoop]
  | succ fuel ih =>
    intro rest mc hmc hlen
    rw [chunkLoop]
    split
    · rename_i hrest; subst hrest; rfl
    · split
      · rename_i hsmall
        simp only [List.flatten_cons, List.flatten_nil, List.append_nil]
        exact filterNS_pyStrip rest
      · rename_i hrest hsmall
        set b := (match findBreak (rest.take (mc + 1)) mc ttsSeparators with
          | some b => b
          | none => mc) with hb_def
        have hb1 : 1 ≤ b := by
          rw [hb_def]
          cases hfb : findBreak (rest.take (mc + 1)) mc ttsSeparators with
          | some b0 =>
            obtain ⟨h1, _, _⟩ := findBreak_some _ mc _ b0 ttsSeparators_spec hfb
            simpa using h1
          | none => simpa using hmc
        have hrlen : 1 ≤ rest.length := by
          cases rest with
          | nil => exact absurd rfl hrest
          | cons x t => simp
        have hrec : (lstrip (rest.drop b)).length ≤ fuel := by
          have h1 : (lstrip (rest.drop b)).length ≤ (rest.drop b).length :=
            lstrip_length_le _
          rw [List.length_drop] at h1
          omega
        have key : filterNS
            ((if pyStrip (rest.take b) = [] then []
              else [pyStrip (rest.take b)]) : List Str).flatten =
            filterNS (rest.take b) := by
          split
          · rename_i hempty
            have := filterNS_pyStrip (rest.take b)
            rw [hempty] at this
            rw [List.flatten_nil]
            exact this
          · simp only [List.flatten_cons, List.flatten_nil, List.append_nil]
            exact filterNS_pyStrip _
        rw [List.flatten_append]
        unfold filterNS at *
        rw [List.filter_append, key, ih _ mc hmc hrec]
        have := filterNS_lstrip (rest.drop b)
        unfold filterNS at this
        rw [this, ← List.filter_append, List.take_append_drop]

/-- C5: for every text and every maxChars at least 1, every chunk
returned by the chunker has length at most maxChars (the hard cut at
maxChars means the bound holds even at an unbroken token, which implies
the claim's weaker bound-except-unbroken-token statement), and the
concatenation of the chunks reproduces the original text up to
whitespace: the non-whitespace characters of the joined chunks are
exactly the non-whitespace characters of the input, in order. -/
theorem C5_chunker_bound_and_content (text : List Char) (maxChars : Nat)
    (hmc : 1 ≤ maxChars) :
    (∀ ch ∈ splitIntoChunks text maxChars, ch.length ≤ maxChars) ∧
    filterNS (splitIntoChunks text maxChars).flatten = filterNS text := by
  unfold splitIntoChunks
  simp only
  split
  · rename_i hempty
    constructor
    · intro ch hch; simp at hch
    · rw [← filterNS_pyStrip text, hempty]
      rfl
  · split
    · rename_i hempty hsmall
      constructor
      · intro ch hch
        simp only [List.mem_singleton] at hch
        subst hch
        exact hsmall
      · simp only [List.flatten_cons, List.flatten_nil, List.append_nil]
        exact filterNS_pyStrip text
    · constructor
      · exact chunkLoop_chunk_length_le _ _ maxChars hmc
      · rw [chunkLoop_filter _ _ maxChars hmc (le_refl _)]
        exact filterNS_pyStrip text

/-- Witness for C5 at a concrete input. -/
theorem C5_chunker_bound_and_content_witness :
    1 ≤ 12 ∧
    ((∀ ch ∈ splitIntoChunks
        ("Hello there. This is a test! Yes; ok, fine now").toList 12,
        ch.length ≤ 12) ∧
     filterNS (splitIntoChunks
        ("Hello there. This is a test! Yes; ok, fine now").toList 12).flatten =
       filterNS ("Hello there. This is a test! Yes; ok, fine now").toList) :=
  ⟨by decide,
    C5_chunker_bound_and_content
      ("Hello there. This is a test! Yes; ok, fine now").toList 12 (by decide)⟩

/-- C10: merging segments to fit the duration preserves the narration
text and its order: joining the merged segments with single spaces equals
joining the original segments with single spaces, for every segment list
and every total duration. -/
theorem C10_merge_preserves_text (segments : List Str) (totalDuration : ℚ) :
    joinWithSpace (mergeSegmentsToFitDuration segments totalDuration) =
      joinWithSpace segments := by
  unfold mergeSegmentsToFitDuration
  split
  · rfl
  · simp only
    split
    · rfl
    · rw [joinWithSpace_map_flatten _ (chunkGroups_ne_nil _ segments),
        chunkGroups_flatten]

/-! The cache-key theorems. -/

set_option maxRecDepth 20000 in
/-- C3 counterexample: the lists ["a"] and ["a", "a"] contain the same
set of trimmed non-empty URLs, but the code sorts without removing
duplicates, so their canonical JSON strings differ and the sha256-based
cache keys differ.  The claimed invariance under duplication is false on
the code (the distinct step named by the spec's key format is absent). -/
theorem C3_counterexample : urlsCacheKey ["a"] ≠ urlsCacheKey ["a", "a"] := by
  decide

/-- C3 amended: the cache key is invariant under reordering and
surrounding whitespace of the URLs (and dropping empty entries), but not
under duplication: two URL lists with the same sorted list of trimmed
non-empty URLs, duplicates included, get the same key. -/
theorem C3_amended_cache_key_invariance (l1 l2 : List String)
    (h : sortStrings (trimmedUrls l1) = sortStrings (trimmedUrls l2)) :
    urlsCacheKey l1 = urlsCacheKey l2 := by
  unfold urlsCacheKey
  rw [h]

/-- Witness for the amended C3: two lists with the same URLs in a
different order and with different surrounding whitespace. -/
theorem C3_amended_cache_key_invariance_witness :
    sortStrings (trimmedUrls ["https://a", " https://b "]) =
      sortStrings (trimmedUrls ["https://b", "https://a "]) ∧
    urlsCacheKey ["https://a", " https://b "] =
      urlsCacheKey ["https://b", "https://a "] :=
  ⟨by decide,
    C3_amended_cache_key_invariance ["https://a", " https://b "]
      ["https://b", "https://a "] (by decide)⟩

/-! The multi-URL summary theorems. -/

theorem collectItemContents_ok
    (resolver : String → Except String (Option (Option ContentDict)))
    (g : String → String) :
    ∀ (l : List String), (∀ u ∈ l, urlItemContent resolver u = .ok (g u)) →
      collectItemContents resolver l = .ok (l.map g) := by
  intro l
  induction l with
  | nil => intro _; rfl
  | cons u rest ih =>
    intro h
    rw [collectItemContents, h u (by simp),
      ih (fun x hx => h x (List.mem_cons_of_mem _ hx))]
    rfl

/-- C7 counterexample: resolving a YouTube URL whose transcript is
unavailable raises a ValueError that get_multi_url_summary does not
catch, so the whole batch aborts with that error: here the first URL
resolves fine, the second raises, and the result is the propagated
error, not a digest with a placeholder.  The claimed isolation for every
failing URL is therefore false on the code; it holds only for the
non-raising failure mode in which the resolver returns no content. -/
theorem C7_counterexample :
    getMultiUrlSummary
        (fun u => if u = "https://youtube.com/watch?v=x" then
            Except.error "Could not get video metadata or transcript"
          else .ok (some (some ⟨some "T", none, some "B", none, none⟩)))
        (String.intercalate " | ")
        ["https://ok", "https://youtube.com/watch?v=x"] =
      Except.error "Could not get video metadata or transcript" := by
  rfl

/-- C7 amended: when no URL resolution in the batch raises (each
resolver call returns, with content or with Python None), a URL whose
content could not be resolved does not abort the batch: the summary is
the digest over all trimmed URLs in order, with the failing URL
contributing the textual placeholder naming it.  A resolution that
raises (the YouTube transcript path) aborts the whole batch instead.
The function g gives the returned content of each non-raising
resolution. -/
theorem C7_amended_extraction_failure_isolation
    (resolver : String → Except String (Option (Option ContentDict)))
    (digest : List String → String) (urls : List String) (u0 : String)
    (g : String → String)
    (hg : ∀ u ∈ trimmedUrls urls, urlItemContent resolver u = .ok (g u))
    (hu : u0 ∈ trimmedUrls urls) (hfail : resolver u0 = .ok none) :
    getMultiUrlSummary resolver digest urls =
      .ok (digest ((trimmedUrls urls).map g)) ∧
    g u0 = extractionPlaceholder u0 := by
  have hne : ¬ trimmedUrls urls = [] := by
    intro h
    rw [h] at hu
    simp at hu
  constructor
  · unfold getMultiUrlSummary
    rw [if_neg hne, collectItemContents_ok resolver g _ hg]
    have hmap : ¬ (trimmedUrls urls).map g = [] := by simp [hne]
    show (if (trimmedUrls urls).map g = [] then
        Except.ok "No content could be extracted from the given URLs."
      else Except.ok (digest ((trimmedUrls urls).map g))) =
      Except.ok (digest ((trimmedUrls urls).map g))
    rw [if_neg hmap]
  · have h1 := hg u0 hu
    unfold urlItemContent at h1
    rw [hfail] at h1
    have h2 : extractionPlaceholder u0 = g u0 := by injection h1
    exact h2.symm

/-- Witness for the amended C7: two URLs, the second resolving to
Python None; no resolution raises. -/
theorem C7_amended_extraction_failure_isolation_witness :
    getMultiUrlSummary
        (fun u => if u = "https://bad" then Except.ok none
          else .ok (some (some ⟨some "T", none, some "B", none, none⟩)))
        (String.intercalate " | ") ["https://good", " https://bad "] =
      .ok (String.intercalate " | "
        ((trimmedUrls ["https://good", " https://bad "]).map
          (fun u => if u = "https://bad" then extractionPlaceholder u
            else summaryDictToContent
              (some ⟨some "T", none, some "B", none, none⟩) u))) ∧
    (fun u => if u = "https://bad" then extractionPlaceholder u
      else summaryDictToContent
        (some ⟨some "T", none, some "B", none, none⟩) u) "https://bad" =
      extractionPlaceholder "https://bad" :=
  C7_amended_extraction_failure_isolation _ _
    ["https://good", " https://bad "] "https://bad" _
    (by
      intro u hu
      have ht : trimmedUrls ["https://good", " https://bad "] =
          ["https://good", "https://bad"] := by decide
      rw [ht] at hu
      rcases List.mem_cons.mp hu with h | h
      · subst h; rfl
      · have : u = "https://bad" := by simpa using h
        subst this; rfl)
    (by decide) (by rfl)

/-! The cache short-circuit theorem. -/

/-- C4: when a cached record for (userId, cacheKey) exists, its storage
path is non-empty and the file is present on disk, the endpoint returns
the cached path and duration immediately, the database is unchanged (so
the record's transcript stays available as stored), and no effects are
performed: no URL resolution, no summarization, no speech synthesis and
no cache write. -/
theorem C4_cache_short_circuit (userId : Nat) (urls : List String)
    (db : List CachedAudio) (fsFiles : List String)
    (resolver : String → Except String (Option (Option ContentDict)))
    (digest : List String → String)
    (tts : String → Except String (String × Option ℚ)) (rec_ : CachedAudio)
    (hurls : urls ≠ [])
    (hfind : dbFind db userId (urlsCacheKey urls) = some rec_)
    (hpath : rec_.storagePath ≠ "") (hfs : rec_.storagePath ∈ fsFiles) :
    generatePodcastFromUrls userId urls true db fsFiles resolver digest tts =
      (.cachedFile rec_.storagePath rec_.durationSeconds, db, []) := by
  unfold generatePodcastFromUrls
  rw [if_neg hurls, if_neg (by simp)]
  simp only [hfind, if_pos (And.intro hpath hfs)]

set_option maxRecDepth 20000 in
/-- Witness for C4: a one-row database whose row carries the key of the
requested URL list and whose file is on disk. -/
theorem C4_cache_short_circuit_witness :
    generatePodcastFromUrls 1 ["https://example.com/a"] true
        [⟨1, urlsCacheKey ["https://example.com/a"], "/tmp/a.wav", some 3,
          "hello"⟩]
        ["/tmp/a.wav"] (fun _ => .ok none) (fun _ => "") (fun _ => .error "x") =
      (.cachedFile "/tmp/a.wav" (some 3),
        [⟨1, urlsCacheKey ["https://example.com/a"], "/tmp/a.wav", some 3,
          "hello"⟩], []) :=
  C4_cache_short_circuit 1 ["https://example.com/a"]
    [⟨1, urlsCacheKey ["https://example.com/a"], "/tmp/a.wav", some 3,
      "hello"⟩]
    ["/tmp/a.wav"] (fun _ => .ok none) (fun _ => "") (fun _ => .error "x")
    ⟨1, urlsCacheKey ["https://example.com/a"], "/tmp/a.wav", some 3, "hello"⟩
    (by simp) (by decide) (by decide) (by decide)

/-! The progress stream theorems. -/

/-- C8 counterexample: for a token with no progress entry at all, the
stream emits a progress-0 payload on every poll: two consecutive
iterations both emit although the store is unchanged between them (still
empty) and nothing is done, so the claim that a payload is emitted only
on a change of the stored progress value or on completion is false on
the code. -/
theorem C8_counterexample :
    (progressStep [] (-1) "t").emitted = some ⟨0, false, none⟩ ∧
    (progressStep [] (-1) "t").store = [] ∧
    (progressStep [] (-1) "t").stop = false ∧
    (progressStep (progressStep [] (-1) "t").store
        (progressStep [] (-1) "t").lastProgress "t").emitted =
      some ⟨0, false, none⟩ := by
  decide

/-- C8 amended: for a token that has a progress entry, the stream emits
exactly when the stored progress differs from the last emitted value or
the entry is done; upon a done entry it emits the done payload, deletes
the entry from the store and terminates the stream immediately; on a
not-done entry the store is untouched and the stream continues.  (For a
token with no entry the stream emits a progress-0 payload on every
poll.) -/
theorem C8_amended_progress_stream (store : ProgressStore) (last : Int)
    (token : String) (e : ProgressEntry)
    (hget : storeGet store token = some e) :
    ((progressStep store last token).emitted ≠ none ↔
      (e.progress ≠ last ∨ e.done = true)) ∧
    (e.done = true →
      (progressStep store last token).emitted =
        some ⟨e.progress, true, e.error⟩ ∧
      (progressStep store last token).store = storePop store token ∧
      (progressStep store last token).stop = true) ∧
    (e.done = false →
      (progressStep store last token).store = store ∧
      (progressStep store last token).stop = false) := by
  unfold progressStep
  rw [hget]
  by_cases hcond : e.progress ≠ last ∨ e.done = true
  · cases hdone : e.done with
    | true => simp [hcond, hdone]
    | false => simp [hcond, hdone]
  · cases hdone : e.done with
    | true => exact absurd (Or.inr hdone) hcond
    | false => simp [hcond, hdone]

/-- Witness for the amended C8: a store holding one done entry for the
polled token. -/
theorem C8_amended_progress_stream_witness :
    ((progressStep [("t", ⟨100, true, none⟩)] 50 "t").emitted ≠ none ↔
      ((100 : Int) ≠ 50 ∨ true = true)) ∧
    (true = true →
      (progressStep [("t", ⟨100, true, none⟩)] 50 "t").emitted =
        some ⟨100, true, none⟩ ∧
      (progressStep [("t", ⟨100, true, none⟩)] 50 "t").store =
        storePop [("t", ⟨100, true, none⟩)] "t" ∧
      (progressStep [("t", ⟨100, true, none⟩)] 50 "t").stop = true) ∧
    (true = false →
      (progressStep [("t", ⟨100, true, none⟩)] 50 "t").store =
        [("t", ⟨100, true, none⟩)] ∧
      (progressStep [("t", ⟨100, true, none⟩)] 50 "t").stop = false) :=
  C8_amended_progress_stream [("t", ⟨100, true, none⟩)] 50 "t"
    ⟨100, true, none⟩ (by decide)

/-! The synthesis atomicity theorems. -/

theorem ttsConcatFrames_error (provider : Str → Except String (List Nat))
    (pre : List Str) (failing : Str) (post : List Str) (e : String)
    (hpre : ∀ c ∈ pre, pyStrip c ≠ [] → ∃ d, provider c = .ok d)
    (hstrip : pyStrip failing ≠ [])
    (hfail : provider failing = .error e) :
    ttsConcatFrames provider (pre ++ failing :: post) = .error e := by
  induction pre with
  | nil =>
    rw [List.nil_append, ttsConcatFrames, if_neg hstrip, hfail]
  | cons c pre ih =>
    rw [List.cons_append, ttsConcatFrames]
    by_cases hc : pyStrip c = []
    · rw [if_pos hc]
      exact ih (fun x hx => hpre x (List.mem_cons_of_mem _ hx))
    · rw [if_neg hc]
      obtain ⟨d, hd⟩ := hpre c (by simp) hc
      rw [hd, ih (fun x hx => hpre x (List.mem_cons_of_mem _ hx))]

/-- C6: in the multi-chunk synthesis path, when the provider call for
one chunk fails (after any earlier non-empty chunks succeeded), the
whole synthesis aborts with that provider error: the result is that
error, so no partial audio is kept and no WAV container value is
produced. -/
theorem C6_synthesis_atomicity (provider : Str → Except String (List Nat))
    (pre : List Str) (failing : Str) (post : List Str) (e : String)
    (hpre : ∀ c ∈ pre, pyStrip c ≠ [] → ∃ d, provider c = .ok d)
    (hstrip : pyStrip failing ≠ [])
    (hfail : provider failing = .error e) :
    textToAudioMultiChunk provider (pre ++ failing :: post) = .error e := by
  unfold textToAudioMultiChunk
  rw [ttsConcatFrames_error provider pre failing post e hpre hstrip hfail]

/-- Witness for C6: three chunks, the middle one failing. -/
theorem C6_synthesis_atomicity_witness :
    textToAudioMultiChunk
        (fun c => if c = ['b', 'a', 'd'] then Except.error "boom"
          else Except.ok [1, 2])
        [['o', 'k'], ['b', 'a', 'd'], ['x']] =
      Except.error "boom" :=
  C6_synthesis_atomicity _ [['o', 'k']] ['b', 'a', 'd'] [['x']] "boom"
    (fun c hc _ => ⟨[1, 2], by
      have : c = ['o', 'k'] := by simpa using hc
      subst this
      rfl⟩)
    (by decide) (by rfl)

end AuraBriefing
